import Mathlib

/-
Verification development for the `infotopo` prediction module
(`infotopo/predict.py`).

The module wraps a numeric function `p ↦ y` together with its Jacobian in a
`Predict` object carrying metadata (parameter ids `pids`, output ids `yids`,
default parameter vector `p0`, parametrization tag `ptype`).  We embed the
module shallowly:

* a pandas `Series` becomes a pair of an index (string labels) and a value
  list;
* numpy vectors become `List α` and numpy matrices become row-major
  `List (List α)` (`np.concatenate` on matrices is row concatenation,
  broadcasting `M * v` multiplies every row of `M` elementwise with `v`);
* machine floats become exact scalars: `ℚ` where the behaviour is purely
  rational, `ℝ` where `np.exp`/`np.log` are involved;
* Python assertion failures and unbound-variable errors become `Option`
  results (`none` = the call raises instead of returning a value).
-/

/-- Labelled vector: shallow embedding of the pandas `Series` values used by
the module (`util.Series(values, index)`). -/
structure Series (α : Type) where
  index : List String
  values : List α
deriving DecidableEq

/-- Shallow embedding of a `Predict` object's state after `__init__`:
the raw function `_f`, the raw Jacobian `_Df`, the parameter ids `pids`,
the output ids `yids`, the default parameter values `p0` (the value list of
the Series `self.p0`, whose index is `pids`), and the parametrization tag
`ptype`. -/
structure Predict (α : Type) where
  _f : List α → List α
  _Df : List α → List (List α)
  pids : List String
  yids : List String
  p0 : List α
  ptype : String

/-- The wrapped call `f(p=None)` installed by `Predict.__init__`: a missing
argument defaults to the stored `self.p0`, and the raw output vector is
returned as a Series labelled by `self.yids`. -/
def Predict.fWrap {α : Type} (pred : Predict α) (p : Option (List α)) : Series α :=
  let q := match p with
    | none => pred.p0
    | some q => q
  Series.mk pred.yids (pred._f q)

/-- Shallow embedding of `Predict.__add__`.  The two leading `assert`
statements become guards returning `none`: first `self.pids == other.pids`,
then `all(self.p0 == other.p0)` (elementwise comparison of the default
parameter vectors).  On success the result concatenates the raw outputs,
the Jacobian rows and the output ids, keeping `self`'s pids, p0 and ptype. -/
def Predict.add {α : Type} [DecidableEq α] (a b : Predict α) : Option (Predict α) :=
  if a.pids = b.pids then
    if (List.zipWith (fun x y => decide (x = y)) a.p0 b.p0).all id then
      some { _f := fun p => a._f p ++ b._f p,
             _Df := fun p => a._Df p ++ b._Df p,
             pids := a.pids,
             yids := a.yids ++ b.yids,
             p0 := a.p0,
             ptype := a.ptype }
    else none
  else none

/-- Shallow embedding of `Predict.get_sigma`.  The Python body computes
`y = self.f(p)` and then runs three independent `if` statements assigning
`sigma`; since `errormodel` matches at most one of the three string
constants, this is the same as the cascade below, and when none matches the
local `sigma` was never assigned, so the `return sigma` raises
(`none` here). -/
def Predict.get_sigma (pred : Predict ℚ) (p : Option (List ℚ)) (errormodel : String)
    (constant_sigma cv : ℚ) : Option (Series ℚ) :=
  let y := (pred.fWrap p).values
  if errormodel = "constant" then
    some (Series.mk pred.yids (List.replicate y.length constant_sigma))
  else if errormodel = "cv" then
    some (Series.mk pred.yids (y.map (fun v => v * cv)))
  else if errormodel = "mixed" then
    some (Series.mk pred.yids
      (List.zipWith max (y.map (fun v => v * cv)) (List.replicate y.length constant_sigma)))
  else none

/-- Booleanised elementwise comparison (the embedding of
`all(self.p0 == other.p0)`) agrees with list equality on equal-length
lists. -/
theorem zipWith_all_eq_iff : ∀ (l1 l2 : List ℚ), l1.length = l2.length →
    (((List.zipWith (fun x y => decide (x = y)) l1 l2).all id) = true ↔ l1 = l2) := by
  intro l1
  induction l1 with
  | nil =>
    intro l2 h
    cases l2 with
    | nil => simp
    | cons b t => simp at h
  | cons a t ih =>
    intro l2 h
    cases l2 with
    | nil => simp at h
    | cons b t2 =>
      simp only [List.length_cons, Nat.add_right_cancel_iff] at h
      simp [List.zipWith_cons_cons, List.all_cons, ih t2 h]

/-- C1: a concatenated prediction `A + B` evaluates, at every parameter
vector `p`, to the concatenation of `A`'s raw output at `p` followed by
`B`'s raw output at `p`; its output identifier list is `A.yids ++ B.yids`,
and its wrapped call at `p` returns the Series with exactly those labels
and values. -/
theorem add_concatenates (a b c : Predict ℚ) (h : a.add b = some c) (p : List ℚ) :
    c._f p = a._f p ++ b._f p ∧ c.yids = a.yids ++ b.yids ∧
      c.fWrap (some p) = Series.mk (a.yids ++ b.yids) (a._f p ++ b._f p) := by
  unfold Predict.add at h
  split at h
  · split at h
    · cases h
      exact ⟨rfl, rfl, rfl⟩
    · exact Option.noConfusion h
  · exact Option.noConfusion h

/-- Concrete prediction with one parameter `k` and output `y1 = k + 1`. -/
def predA : Predict ℚ :=
  { _f := fun p => [p.getD 0 0 + 1],
    _Df := fun _ => [[1]],
    pids := ["k"],
    yids := ["y1"],
    p0 := [2],
    ptype := "" }

/-- Concrete prediction with one parameter `k` and output `y2 = 3 * k`,
sharing `predA`'s parameter space. -/
def predB : Predict ℚ :=
  { _f := fun p => [3 * p.getD 0 0],
    _Df := fun _ => [[3]],
    pids := ["k"],
    yids := ["y2"],
    p0 := [2],
    ptype := "" }

/-- The result that `predA.add predB` constructs. -/
def predAB : Predict ℚ :=
  { _f := fun p => predA._f p ++ predB._f p,
    _Df := fun p => predA._Df p ++ predB._Df p,
    pids := predA.pids,
    yids := predA.yids ++ predB.yids,
    p0 := predA.p0,
    ptype := predA.ptype }

/-- Witness for C1 at the concrete pair `predA`, `predB` and `p = [5]`. -/
theorem add_concatenates_witness :
    predAB._f [5] = predA._f [5] ++ predB._f [5] ∧
      predAB.yids = predA.yids ++ predB.yids ∧
      predAB.fWrap (some [5]) =
        Series.mk (predA.yids ++ predB.yids) (predA._f [5] ++ predB._f [5]) :=
  add_concatenates predA predB predAB rfl [5]

/-- C5: `__add__` fails its assertions (producing no combined prediction)
exactly when the parameter identifier lists differ or the default parameter
vectors differ.  The length hypotheses record the `__init__` invariant that
`self.p0` is a Series indexed by `pids` (pandas enforces equal lengths at
construction). -/
theorem add_none_iff (a b : Predict ℚ) (ha : a.p0.length = a.pids.length)
    (hb : b.p0.length = b.pids.length) :
    a.add b = none ↔ (a.pids ≠ b.pids ∨ a.p0 ≠ b.p0) := by
  unfold Predict.add
  by_cases hp : a.pids = b.pids
  · rw [if_pos hp]
    have hlen : a.p0.length = b.p0.length := by rw [ha, hb, hp]
    by_cases h0 : a.p0 = b.p0
    · rw [if_pos ((zipWith_all_eq_iff _ _ hlen).2 h0)]
      simp [hp, h0]
    · rw [if_neg (fun hall => h0 ((zipWith_all_eq_iff _ _ hlen).1 hall))]
      simp [hp, h0]
  · rw [if_neg hp]
    simp [hp]

/-- Concrete prediction sharing `predA`'s pids but with a different default
parameter vector. -/
def predD : Predict ℚ :=
  { _f := fun p => [p.getD 0 0],
    _Df := fun _ => [[1]],
    pids := ["k"],
    yids := ["y3"],
    p0 := [3],
    ptype := "" }

/-- Witness for C5 at the concrete pair `predA`, `predD` (equal pids,
different p0). -/
theorem add_none_iff_witness :
    predA.add predD = none ↔ (predA.pids ≠ predD.pids ∨ predA.p0 ≠ predD.p0) :=
  add_none_iff predA predD rfl rfl

/-- C6: the `'mixed'` error model returns the elementwise max of what the
`'constant'` and `'cv'` error models return at the same parameter vector
(same labels, values combined by `max`). -/
theorem sigma_mixed_max (pred : Predict ℚ) (p : Option (List ℚ)) (cs cv : ℚ)
    (sc sv : Series ℚ)
    (hc : pred.get_sigma p "constant" cs cv = some sc)
    (hv : pred.get_sigma p "cv" cs cv = some sv) :
    pred.get_sigma p "mixed" cs cv =
      some (Series.mk sc.index (List.zipWith max sc.values sv.values)) := by
  unfold Predict.get_sigma at hc hv ⊢
  rw [if_pos rfl] at hc
  rw [if_neg (by decide), if_pos rfl] at hv
  rw [if_neg (by decide), if_neg (by decide), if_pos rfl]
  cases hc
  cases hv
  rw [List.zipWith_comm_of_comm max max_comm]

/-- Witness for C6 at `predA`, `p = [4]`, `constant_sigma = 1`,
`cv = 2`: the constant model gives `[1]`, the cv model gives `[10]`,
and the mixed model gives their elementwise max. -/
theorem sigma_mixed_max_witness :
    predA.get_sigma (some [4]) "mixed" 1 2 =
      some (Series.mk (Series.mk ["y1"] [(1 : ℚ)]).index
        (List.zipWith max (Series.mk ["y1"] [(1 : ℚ)]).values
          (Series.mk ["y1"] [(10 : ℚ)]).values)) :=
  sigma_mixed_max predA (some [4]) 1 2 (Series.mk ["y1"] [1])
    (Series.mk ["y1"] [10]) rfl
    (by simp [Predict.get_sigma, Predict.fWrap, predA]; norm_num)

/-- C8: the wrapped call with no argument (`f()`, i.e. `f(None)`) returns
the same labelled output vector as the wrapped call given the stored
default parameter vector explicitly. -/
theorem fWrap_default {α : Type} (pred : Predict α) :
    pred.fWrap none = pred.fWrap (some pred.p0) := rfl

/-- C9: `get_sigma` with an error model other than `'constant'`, `'cv'` and
`'mixed'` leaves the local `sigma` unassigned, so the call raises instead of
falling back to any model: the embedded result is `none`. -/
theorem get_sigma_unknown (pred : Predict ℚ) (p : Option (List ℚ)) (em : String)
    (cs cv : ℚ) (h1 : em ≠ "constant") (h2 : em ≠ "cv") (h3 : em ≠ "mixed") :
    pred.get_sigma p em cs cv = none := by
  unfold Predict.get_sigma
  rw [if_neg h1, if_neg h2, if_neg h3]

/-- Witness for C9 at the unknown error model string `"gaussian"`. -/
theorem get_sigma_unknown_witness : predA.get_sigma none "gaussian" 1 (1/10) = none :=
  get_sigma_unknown predA none "gaussian" 1 (1/10) (by decide) (by decide) (by decide)

/-- Numpy broadcast product `M * v` of a matrix (list of rows) with a
vector: every row of `M` is multiplied elementwise with `v`, so column `j`
of `M` is scaled by the `j`-th component of `v`. -/
def npMulMatVec (M : List (List ℝ)) (v : List ℝ) : List (List ℝ) :=
  M.map (fun row => List.zipWith (fun x y => x * y) row v)

/-- The closure `_f_logp` built by `Predict.get_in_logp`: exponentiate the
argument, then apply the original raw function. -/
noncomputable def f_logp (f : List ℝ → List ℝ) : List ℝ → List ℝ :=
  fun logp => f (logp.map Real.exp)

/-- The closure `_Df_logp` built by `Predict.get_in_logp`:
`d y/d logp = (d y/d p) * p` with `p = exp(logp)` (numpy broadcast). -/
noncomputable def Df_logp (Df : List ℝ → List (List ℝ)) : List ℝ → List (List ℝ) :=
  fun logp => npMulMatVec (Df (logp.map Real.exp)) (logp.map Real.exp)

/-- Shallow embedding of `Predict.get_in_logp`: the assertion
`self.ptype == ''` becomes a guard, and the log-parameter prediction gets
`log_`-prefixed parameter ids, `log`-transformed default parameters and
parametrization tag `'logp'`. -/
noncomputable def Predict.get_in_logp (pred : Predict ℝ) : Option (Predict ℝ) :=
  if pred.ptype = "" then
    some { _f := f_logp pred._f,
           _Df := Df_logp pred._Df,
           pids := pred.pids.map (fun pid => "log_" ++ pid),
           yids := pred.yids,
           p0 := pred.p0.map Real.log,
           ptype := "logp" }
  else none

/-- C2: for a prediction in bare parametrization, the log-space prediction
produced by `get_in_logp`, evaluated at `log p` for a strictly positive
parameter vector `p`, returns the same raw output vector as the original
prediction at `p`. -/
theorem logp_roundtrip (pred q : Predict ℝ) (h : pred.get_in_logp = some q)
    (p : List ℝ) (hp : ∀ x ∈ p, 0 < x) :
    q._f (p.map Real.log) = pred._f p := by
  unfold Predict.get_in_logp at h
  split at h
  · cases h
    show pred._f ((p.map Real.log).map Real.exp) = pred._f p
    rw [List.map_map]
    congr 1
    calc p.map (Real.exp ∘ Real.log)
        = p.map id := List.map_congr_left (fun x hx => Real.exp_log (hp x hx))
      _ = p := List.map_id p
  · exact Option.noConfusion h

/-- Concrete real-valued prediction in bare parametrization. -/
def predR : Predict ℝ :=
  { _f := fun p => p,
    _Df := fun _ => [[1]],
    pids := ["k"],
    yids := ["y1"],
    p0 := [1],
    ptype := "" }

/-- Witness for C2 at `predR` and the positive parameter vector `[2]`. -/
theorem logp_roundtrip_witness :
    f_logp predR._f ([(2 : ℝ)].map Real.log) = predR._f [(2 : ℝ)] :=
  logp_roundtrip predR
    (Predict.mk (f_logp predR._f) (Df_logp predR._Df)
      (predR.pids.map (fun pid => "log_" ++ pid)) predR.yids
      (predR.p0.map Real.log) "logp")
    rfl [(2 : ℝ)] (by norm_num)

/-- Entry of a zipWith product, in optional-lookup form: out-of-range
entries read as 0 on both sides. -/
theorem zipWith_mul_entry : ∀ (row v : List ℝ) (j : ℕ),
    ((List.zipWith (fun x y => x * y) row v)[j]?).getD 0 =
      (row[j]?).getD 0 * (v[j]?).getD 0 := by
  intro row
  induction row with
  | nil => intro v j; simp
  | cons a t ih =>
    intro v j
    cases v with
    | nil => simp
    | cons b tv =>
      cases j with
      | zero => simp
      | succ k => simpa using ih tv k

/-- Entry `(i, j)` of the numpy broadcast product `M * v` is entry `(i, j)`
of `M` times component `j` of `v` (with out-of-range entries reading 0). -/
theorem npMulMatVec_entry (M : List (List ℝ)) (v : List ℝ) (i j : ℕ) :
    ((npMulMatVec M v).getD i []).getD j 0 =
      (M.getD i []).getD j 0 * v.getD j 0 := by
  unfold npMulMatVec
  simp only [List.getD_eq_getElem?_getD, List.getElem?_map]
  cases hM : M[i]? with
  | none => simp
  | some row => simp [zipWith_mul_entry]

/-- C3: the log-space prediction's Jacobian at `logp` is the original
Jacobian evaluated at `exp(logp)` with column `j` scaled by the `j`-th
component of `exp(logp)` (the chain rule), stated entrywise. -/
theorem logp_chain_rule (pred q : Predict ℝ) (h : pred.get_in_logp = some q)
    (logp : List ℝ) (i j : ℕ) :
    ((q._Df logp).getD i []).getD j 0 =
      ((pred._Df (logp.map Real.exp)).getD i []).getD j 0 *
        (logp.map Real.exp).getD j 0 := by
  unfold Predict.get_in_logp at h
  split at h
  · cases h
    exact npMulMatVec_entry (pred._Df (logp.map Real.exp)) (logp.map Real.exp) i j
  · exact Option.noConfusion h

/-- Witness for C3 at `predR`, `logp = [0]` and entry `(0, 0)`. -/
theorem logp_chain_rule_witness :
    ((Df_logp predR._Df [(0 : ℝ)]).getD 0 []).getD 0 0 =
      ((predR._Df ([(0 : ℝ)].map Real.exp)).getD 0 []).getD 0 0 *
        ([(0 : ℝ)].map Real.exp).getD 0 0 :=
  logp_chain_rule predR
    (Predict.mk (f_logp predR._f) (Df_logp predR._Df)
      (predR.pids.map (fun pid => "log_" ++ pid)) predR.yids
      (predR.p0.map Real.log) "logp")
    rfl [(0 : ℝ)] 0 0

/-- C10: `get_in_logp` requires bare parametrization: on a prediction whose
`ptype` is nonempty the assertion fails (no result), and any prediction it
produces carries `ptype = 'logp'`, so it can never be reparametrized into
log-space twice. -/
theorem get_in_logp_requires_bare (pred : Predict ℝ) :
    (pred.ptype ≠ "" → pred.get_in_logp = none) ∧
      (∀ q, pred.get_in_logp = some q → q.ptype = "logp" ∧ q.get_in_logp = none) := by
  constructor
  · intro h
    unfold Predict.get_in_logp
    rw [if_neg h]
  · intro q hq
    unfold Predict.get_in_logp at hq
    split at hq
    · cases hq
      refine ⟨rfl, ?_⟩
      simp [Predict.get_in_logp]
    · exact Option.noConfusion hq

/-- Concrete prediction already tagged as being in log parameters. -/
def predL : Predict ℝ :=
  { _f := fun p => p,
    _Df := fun _ => [[1]],
    pids := ["log_k"],
    yids := ["y1"],
    p0 := [0],
    ptype := "logp" }

/-- Witness for C10: `predL` (nonempty ptype) is rejected, and the
log-space prediction built from `predR` has ptype `'logp'` and is rejected
when reparametrized again. -/
theorem get_in_logp_requires_bare_witness :
    predL.get_in_logp = none ∧
      (Predict.mk (f_logp predR._f) (Df_logp predR._Df)
          (predR.pids.map (fun pid => "log_" ++ pid)) predR.yids
          (predR.p0.map Real.log) "logp").ptype = "logp" ∧
        (Predict.mk (f_logp predR._f) (Df_logp predR._Df)
            (predR.pids.map (fun pid => "log_" ++ pid)) predR.yids
            (predR.p0.map Real.log) "logp").get_in_logp = none :=
  ⟨(get_in_logp_requires_bare predL).1 (by decide),
    (get_in_logp_requires_bare predR).2
      (Predict.mk (f_logp predR._f) (Df_logp predR._Df)
        (predR.pids.map (fun pid => "log_" ++ pid)) predR.yids
        (predR.p0.map Real.log) "logp") rfl⟩

/-- Dot product of two rational vectors (truncating at the shorter list);
used to state the affine test function `f(p) = M p` of C4. -/
def dotList : List ℚ → List ℚ → ℚ
  | x :: xs, y :: ys => x * y + dotList xs ys
  | _, _ => 0

@[simp] theorem dotList_nil_left (ys : List ℚ) : dotList [] ys = 0 := rfl

@[simp] theorem dotList_nil_right (xs : List ℚ) : dotList xs [] = 0 := by
  cases xs <;> rfl

@[simp] theorem dotList_cons (x y : ℚ) (xs ys : List ℚ) :
    dotList (x :: xs) (y :: ys) = x * y + dotList xs ys := rfl

/-- Matrix–vector product `M @ p` with `M` a list of rows. -/
def matVec (M : List (List ℚ)) (p : List ℚ) : List ℚ :=
  M.map (fun row => dotList row p)

/-- Numpy transpose of a (rectangular) list-of-rows matrix: the number of
result rows is the length of the first input row, and result row `r`
collects entry `r` of every input row. -/
def npTranspose (L : List (List ℚ)) : List (List ℚ) :=
  (List.range (L.headD []).length).map (fun r => L.map (fun row => row.getD r 0))

/-- The loop body of `get_Df_fd`: column `i` of the symmetric
finite-difference Jacobian.  The step is `deltap_i = max(p_i * rdeltap,
rdeltap)`, the perturbation vector is zero except `deltap_i` at position
`i`, and the column is `(f(p + deltap) - f(p - deltap)) / 2 / deltap_i`. -/
def fdColumn (f : List ℚ → List ℚ) (rdeltap : ℚ) (p : List ℚ) (i : ℕ) : List ℚ :=
  let deltap_i := max (p.getD i 0 * rdeltap) rdeltap
  let deltap := (List.replicate p.length 0).set i deltap_i
  let p_plus := List.zipWith (fun x y => x + y) p deltap
  let p_minus := List.zipWith (fun x y => x - y) p deltap
  (List.zipWith (fun x y => x - y) (f p_plus) (f p_minus)).map (fun x => x / 2 / deltap_i)

/-- Shallow embedding of `get_Df_fd`: the list `jacT` of the columns over
`i = 0 .. len(p) - 1` is transposed into the Jacobian. -/
def get_Df_fd (f : List ℚ → List ℚ) (rdeltap : ℚ) : List ℚ → List (List ℚ) :=
  fun p => npTranspose ((List.range p.length).map (fdColumn f rdeltap p))

/-- Dotting with an all-zero vector gives zero. -/
theorem dotList_replicate_zero : ∀ (r : List ℚ) (n : ℕ),
    dotList r (List.replicate n 0) = 0 := by
  intro r
  induction r with
  | nil => intro n; simp
  | cons a t ih =>
    intro n
    cases n with
    | zero => simp
    | succ m =>
      rw [List.replicate_succ, dotList_cons, ih m]
      ring

/-- Dot products distribute over elementwise sums of equal-length vectors. -/
theorem dotList_zipWith_add (r : List ℚ) : ∀ (p q : List ℚ), p.length = q.length →
    dotList r (List.zipWith (fun x y => x + y) p q) = dotList r p + dotList r q := by
  induction r with
  | nil => intro p q h; simp
  | cons a t ih =>
    intro p q h
    cases p with
    | nil =>
      cases q with
      | nil => simp
      | cons y ys => simp at h
    | cons x xs =>
      cases q with
      | nil => simp at h
      | cons y ys =>
        simp only [List.length_cons, Nat.add_right_cancel_iff] at h
        rw [List.zipWith_cons_cons, dotList_cons, dotList_cons, dotList_cons, ih xs ys h]
        ring

/-- Dot products distribute over elementwise differences of equal-length
vectors. -/
theorem dotList_zipWith_sub (r : List ℚ) : ∀ (p q : List ℚ), p.length = q.length →
    dotList r (List.zipWith (fun x y => x - y) p q) = dotList r p - dotList r q := by
  induction r with
  | nil => intro p q h; simp
  | cons a t ih =>
    intro p q h
    cases p with
    | nil =>
      cases q with
      | nil => simp
      | cons y ys => simp at h
    | cons x xs =>
      cases q with
      | nil => simp at h
      | cons y ys =>
        simp only [List.length_cons, Nat.add_right_cancel_iff] at h
        rw [List.zipWith_cons_cons, dotList_cons, dotList_cons, dotList_cons, ih xs ys h]
        ring

/-- Dotting with the perturbation vector (zero except `δ` at position `i`)
picks out component `i` scaled by `δ`. -/
theorem dotList_delta (δ : ℚ) : ∀ (i : ℕ) (r : List ℚ) (n : ℕ), i < n → i < r.length →
    dotList r ((List.replicate n 0).set i δ) = r.getD i 0 * δ := by
  intro i
  induction i with
  | zero =>
    intro r n hn hr
    cases n with
    | zero => omega
    | succ m =>
      cases r with
      | nil => simp at hr
      | cons a t =>
        rw [List.replicate_succ, List.set_cons_zero, dotList_cons,
          dotList_replicate_zero t m, List.getD_cons_zero]
        ring
  | succ k ih =>
    intro r n hn hr
    cases n with
    | zero => omega
    | succ m =>
      cases r with
      | nil => simp at hr
      | cons a t =>
        rw [List.replicate_succ, List.set_cons_succ, dotList_cons,
          ih t m (by omega) (by simpa using hr), List.getD_cons_succ]
        ring

/-- Zipping two maps of the same list combines the mapped values
pointwise. -/
theorem zipWith_map_same {α β γ : Type} (f : β → β → γ) (g h : α → β) :
    ∀ (l : List α), List.zipWith f (l.map g) (l.map h) = l.map (fun x => f (g x) (h x)) := by
  intro l
  induction l with
  | nil => rfl
  | cons a t ih => simp only [List.map_cons, List.zipWith_cons_cons, ih]

/-- In-range `getD` over a mapped list evaluates the function at the
underlying entry. -/
theorem getD_map_lt {α β : Type} (f : α → β) (l : List α) (r : ℕ) (d : β)
    (h : r < l.length) : (l.map f).getD r d = f l[r] := by
  rw [List.getD_eq_getElem?_getD, List.getElem?_map, List.getElem?_eq_getElem h]
  rfl

/-- Reading every position of a list back off with `getD` reproduces the
list. -/
theorem map_range_getD {α : Type} (l : List α) (d : α) :
    (List.range l.length).map (fun i => l.getD i d) = l := by
  apply List.ext_get
  · simp
  · intro n h1 h2
    simp only [List.get_eq_getElem, List.getElem_map, List.getElem_range]
    exact List.getD_eq_getElem l d h2

/-- Transposing the list of columns of a rectangular matrix `M` (each
column read off with `getD`) recovers `M`. -/
theorem npTranspose_columns (M : List (List ℚ)) (n : ℕ) (hn : 0 < n)
    (hrect : ∀ row ∈ M, row.length = n) :
    npTranspose ((List.range n).map (fun i => M.map (fun row => row.getD i 0))) = M := by
  unfold npTranspose
  have hhead : ((((List.range n).map (fun i => M.map (fun row => row.getD i 0))).headD []).length)
      = M.length := by
    cases n with
    | zero => omega
    | succ m =>
      rw [List.range_succ_eq_map]
      simp
  rw [hhead]
  apply List.ext_get
  · simp
  · intro r h1 h2
    simp only [List.get_eq_getElem, List.getElem_map, List.getElem_range, List.map_map]
    have hstep : ∀ i ∈ List.range n,
        ((fun col => col.getD r 0) ∘ fun i => M.map (fun row => row.getD i 0)) i
          = M[r].getD i 0 := by
      intro i _
      simp only [Function.comp_apply]
      exact getD_map_lt (fun row => row.getD i 0) M r 0 h2
    rw [List.map_congr_left hstep]
    have hrowlen : (M[r]).length = n := hrect _ (List.getElem_mem h2)
    rw [← hrowlen, map_range_getD]

/-- Column `i` of the finite-difference Jacobian of the affine map
`p ↦ M p` is exactly column `i` of `M`: the symmetric difference quotient
is exact on affine functions. -/
theorem fdColumn_affine (M : List (List ℚ)) (p : List ℚ) (rdeltap : ℚ) (i : ℕ)
    (hi : i < p.length) (hrect : ∀ row ∈ M, row.length = p.length) (hr : 0 < rdeltap) :
    fdColumn (matVec M) rdeltap p i = M.map (fun row => row.getD i 0) := by
  have hδne : max (p.getD i 0 * rdeltap) rdeltap ≠ 0 :=
    ne_of_gt (lt_of_lt_of_le hr (le_max_right _ _))
  have hdlen : p.length =
      ((List.replicate p.length 0).set i (max (p.getD i 0 * rdeltap) rdeltap)).length := by
    simp
  simp only [fdColumn, matVec, zipWith_map_same, List.map_map]
  apply List.map_congr_left
  intro row hrow
  simp only [Function.comp_apply]
  rw [dotList_zipWith_add row p _ hdlen, dotList_zipWith_sub row p _ hdlen,
    dotList_delta (max (p.getD i 0 * rdeltap) rdeltap) i row p.length hi
      (by rw [hrect row hrow]; exact hi)]
  rw [div_div, div_eq_iff (mul_ne_zero two_ne_zero hδne)]
  ring

/-- C4: on an affine function `f(p) = M p` the symmetric finite-difference
estimator returns the matrix `M` exactly (in exact arithmetic), for every
nonempty parameter vector and every positive relative step. -/
theorem get_Df_fd_affine (M : List (List ℚ)) (p : List ℚ) (rdeltap : ℚ)
    (hp : p ≠ []) (hrect : ∀ row ∈ M, row.length = p.length) (hr : 0 < rdeltap) :
    get_Df_fd (matVec M) rdeltap p = M := by
  have hplen : 0 < p.length := List.length_pos.2 hp
  unfold get_Df_fd
  rw [List.map_congr_left (fun i hi =>
    fdColumn_affine M p rdeltap i (List.mem_range.1 hi) hrect hr)]
  exact npTranspose_columns M p.length hplen hrect

/-- Witness for C4 at `M = [[1,2],[3,4]]`, `p = [1,2]` and the module's
default relative step `1/1000`. -/
theorem get_Df_fd_affine_witness :
    get_Df_fd (matVec [[1, 2], [3, 4]]) (1/1000) [1, 2] = [[1, 2], [3, 4]] :=
  get_Df_fd_affine [[1, 2], [3, 4]] [1, 2] (1/1000) (by simp)
    (by decide) (by norm_num)

/-- Arithmetic expressions over named variables: the fragment of the
string-expression language that the docstring example
`str2predict('V*x/(K+x)', ...)` exercises. -/
inductive Expr where
  | const (q : ℚ)
  | var (s : String)
  | add (a b : Expr)
  | sub (a b : Expr)
  | mul (a b : Expr)
  | div (a b : Expr)
deriving DecidableEq

/-- First-match lookup of a named value in an environment. -/
def lookupEnv : List (String × ℚ) → String → Option ℚ
  | [], _ => none
  | (k, v) :: rest, s => if s = k then some v else lookupEnv rest s

/-- Modelled from the spec: `util.sub_expr` (module `infotopo/util.py`, not
among the sources here) substitutes numeric values for named variables in
an expression; `str2predict` uses it to plug each input row `u` into the
function string. -/
def sub_expr (e : Expr) (env : List (String × ℚ)) : Expr :=
  match e with
  | Expr.const q => Expr.const q
  | Expr.var s =>
    match lookupEnv env s with
    | some v => Expr.const v
    | none => Expr.var s
  | Expr.add a b => Expr.add (sub_expr a env) (sub_expr b env)
  | Expr.sub a b => Expr.sub (sub_expr a env) (sub_expr b env)
  | Expr.mul a b => Expr.mul (sub_expr a env) (sub_expr b env)
  | Expr.div a b => Expr.div (sub_expr a env) (sub_expr b env)

/-- Evaluation of an expression under a variable environment (unbound
variables read 0; rational division is total with `x / 0 = 0`, and every
denominator in the example below is nonzero). -/
def evalExpr (env : List (String × ℚ)) : Expr → ℚ
  | Expr.const q => q
  | Expr.var s => (lookupEnv env s).getD 0
  | Expr.add a b => evalExpr env a + evalExpr env b
  | Expr.sub a b => evalExpr env a - evalExpr env b
  | Expr.mul a b => evalExpr env a * evalExpr env b
  | Expr.div a b => evalExpr env a / evalExpr env b

/-- Modelled from the spec: `util.diff_expr` composed with
`util.simplify_expr` (module `infotopo/util.py`, not among the sources),
the symbolic derivative of an expression with respect to a named parameter
by the usual sum, product and quotient rules (simplification does not
change the value). -/
def diff_expr : Expr → String → Expr
  | Expr.const _, _ => Expr.const 0
  | Expr.var s, pid => if s = pid then Expr.const 1 else Expr.const 0
  | Expr.add a b, pid => Expr.add (diff_expr a pid) (diff_expr b pid)
  | Expr.sub a b, pid => Expr.sub (diff_expr a pid) (diff_expr b pid)
  | Expr.mul a b, pid =>
    Expr.add (Expr.mul (diff_expr a pid) b) (Expr.mul a (diff_expr b pid))
  | Expr.div a b, pid =>
    Expr.div (Expr.sub (Expr.mul (diff_expr a pid) b)
      (Expr.mul a (diff_expr b pid))) (Expr.mul b b)

/-- Modelled from the spec: the intended `str2predict` pipeline.  Per the
spec's expression-compiler description, an optional constant mapping `c` is
substituted first, then the function string is specialised at every input
row `u` (substituting `uids`), and the resulting expression list is
evaluated at a parameter vector by binding `pids`; the Jacobian rows are
the symbolic derivatives with respect to each parameter.  `p0` defaults to
all ones; the output labels (Python builds `'u=...'` strings) are taken as
given since no claim concerns them.  Note the body in the sources is
unreachable as written: it refers to the unbound name `util`. -/
def str2predict (funcstr : Expr) (pids uids : List String) (us : List (List ℚ))
    (c : Option (List (String × ℚ))) (p0 : Option (List ℚ)) (yids : List String) :
    Predict ℚ :=
  let fs := match c with
    | some cm => sub_expr funcstr cm
    | none => funcstr
  { _f := fun p => us.map (fun u => evalExpr (pids.zip p) (sub_expr fs (uids.zip u))),
    _Df := fun p => us.map (fun u => pids.map (fun pid =>
      evalExpr (pids.zip p) (diff_expr (sub_expr fs (uids.zip u)) pid))),
    pids := pids,
    yids := yids,
    p0 := p0.getD (List.replicate pids.length 1),
    ptype := "" }

/-- The Michaelis–Menten expression `V*x/(K+x)` of the docstring example. -/
def mmExpr : Expr :=
  Expr.div (Expr.mul (Expr.var "V") (Expr.var "x"))
    (Expr.add (Expr.var "K") (Expr.var "x"))

/-- C7, intended behaviour: the modelled
`str2predict('V*x/(K+x)', pids=['V','K'], uids=['x'], us=[[1],[2],[3]])`
prediction, evaluated at the parameter vector `[1, 1]`, returns the output
vector `[1/2, 2/3, 3/4]`.  In the sources the call never gets this far:
`str2predict` dereferences the unbound module name `util` (only `Series`
and `Matrix` are imported from `infotopo.util`), so the docstring example
raises `NameError` before any prediction is built. -/
theorem str2predict_mm_example :
    (str2predict mmExpr ["V", "K"] ["x"] [[1], [2], [3]] none none
        ["u=[1]", "u=[2]", "u=[3]"])._f [1, 1] = [1/2, 2/3, 3/4] := by
  norm_num [str2predict, mmExpr, sub_expr, evalExpr, lookupEnv]

/-- The empty-parameter edge case of C4: with no parameters the estimator's
loop never runs, the transpose of the empty column list is empty, and the
row count of `M` is lost, so the result is not `M` for the affine function
given by the one-row, zero-column matrix `[[]]`. -/
theorem get_Df_fd_affine_empty :
    ¬ (get_Df_fd (matVec [[]]) (1/1000) [] = [[]]) := by
  decide
